import Mathlib

/-!
Verification of the `streaming-qr` backend (`src-tauri/src/lib.rs` and
`src-tauri/src/main.rs`).

The backend exposes four commands: `greet`, `save_decoded_data`,
`validate_data` and `ping`.  Strings are modelled by Lean `String`
(Rust `&str`/`String` values are guaranteed-valid Unicode, exactly like
Lean strings).  Byte-level facts are stated through an explicit UTF-8
encoder producing `List Nat`.  The filesystem and the wall clock are
modelled by an explicit `World` record threaded through
`save_decoded_data`; a Rust panic is modelled by `Option.none`.
-/

namespace StreamingQR

/-! ### Byte-level UTF-8 model

`utf8EncodeChar` is the standard UTF-8 encoding of a Unicode scalar
value (what Rust's `String` stores); `utf8Bytes s` models
`s.as_bytes()`.  `validUtf8` is a translation of the byte-oriented
validation performed by `std::str::from_utf8` (Rust
`core::str::validations::run_utf8_validation`), including its rejection
of overlong encodings, surrogates and out-of-range sequences. -/

def utf8EncodeChar (c : Char) : List Nat :=
  if c.toNat < 0x80 then [c.toNat]
  else if c.toNat < 0x800 then
    [0xC0 + c.toNat / 64, 0x80 + c.toNat % 64]
  else if c.toNat < 0x10000 then
    [0xE0 + c.toNat / 4096, 0x80 + c.toNat / 64 % 64, 0x80 + c.toNat % 64]
  else
    [0xF0 + c.toNat / 262144, 0x80 + c.toNat / 4096 % 64,
     0x80 + c.toNat / 64 % 64, 0x80 + c.toNat % 64]

def utf8Bytes (s : String) : List Nat :=
  s.data.flatMap utf8EncodeChar

/-- A UTF-8 continuation byte: `0x80 ..= 0xBF`. -/
def isUtf8Cont (b : Nat) : Bool :=
  decide (0x80 ≤ b ∧ b ≤ 0xBF)

/-- Constraint on the second byte of a three-byte sequence, by leading byte
(mirrors the `match (first, next!())` table in Rust's `run_utf8_validation`). -/
def utf8Second3 (b1 b2 : Nat) : Bool :=
  if b1 = 0xE0 then decide (0xA0 ≤ b2 ∧ b2 ≤ 0xBF)
  else if b1 = 0xED then decide (0x80 ≤ b2 ∧ b2 ≤ 0x9F)
  else isUtf8Cont b2

/-- Constraint on the second byte of a four-byte sequence, by leading byte. -/
def utf8Second4 (b1 b2 : Nat) : Bool :=
  if b1 = 0xF0 then decide (0x90 ≤ b2 ∧ b2 ≤ 0xBF)
  else if b1 = 0xF4 then decide (0x80 ≤ b2 ∧ b2 ≤ 0x8F)
  else isUtf8Cont b2

mutual

/-- Byte-level UTF-8 validation, as performed by `std::str::from_utf8`:
dispatch on the leading byte, then check the required continuation
bytes (`validUtf8TailN` checks the tail of an `N`-byte sequence). -/
def validUtf8 : List Nat → Bool
  | [] => true
  | b1 :: rest =>
    if b1 < 0x80 then validUtf8 rest
    else if 0xC2 ≤ b1 ∧ b1 ≤ 0xDF then validUtf8Tail2 rest
    else if 0xE0 ≤ b1 ∧ b1 ≤ 0xEF then validUtf8Tail3 b1 rest
    else if 0xF0 ≤ b1 ∧ b1 ≤ 0xF4 then validUtf8Tail4 b1 rest
    else false

def validUtf8Tail2 : List Nat → Bool
  | b2 :: rest => isUtf8Cont b2 && validUtf8 rest
  | [] => false

def validUtf8Tail3 (b1 : Nat) : List Nat → Bool
  | b2 :: b3 :: rest => utf8Second3 b1 b2 && isUtf8Cont b3 && validUtf8 rest
  | _ => false

def validUtf8Tail4 (b1 : Nat) : List Nat → Bool
  | b2 :: b3 :: b4 :: rest =>
    utf8Second4 b1 b2 && isUtf8Cont b3 && isUtf8Cont b4 && validUtf8 rest
  | _ => false

end

/-! ### Rust string-iterator model

Rust's `str::split`, `str::lines` and `str::split_whitespace` are
modelled as functions on `List Char`.  `splitOnPred p l` is the list of
fields obtained by splitting at every character satisfying `p`
(`str::split` semantics: `n` separators produce `n + 1` fields, empty
fields included). -/

def splitOnPred (p : Char → Bool) : List Char → List (List Char)
  | [] => [[]]
  | c :: rest =>
    if p c then [] :: splitOnPred p rest
    else
      match splitOnPred p rest with
      | [] => [[c]]
      | w :: ws => (c :: w) :: ws

/-- `str::strip_suffix('\x0D')`-like step used by Rust `lines()`:
remove one trailing carriage return from a line, if present. -/
def stripCr (l : List Char) : List Char :=
  match l.getLast? with
  | some c => if c = '\x0d' then l.dropLast else l
  | none => l

/-- Rust `str::lines()`: split-terminator on `'\n'` (the final field is
dropped when empty) with a trailing `'\x0D'` stripped from each line. -/
def rustLines (l : List Char) : List (List Char) :=
  let parts := splitOnPred (fun c => c = '\n') l
  (if parts.getLast? = some [] then parts.dropLast else parts).map stripCr

/-- Rust `char::is_whitespace`: the Unicode `White_Space` property. -/
def rustIsWhitespace (c : Char) : Bool :=
  decide (c.toNat = 0x09 ∨ c.toNat = 0x0A ∨ c.toNat = 0x0B ∨ c.toNat = 0x0C ∨
    c.toNat = 0x0D ∨ c.toNat = 0x20 ∨ c.toNat = 0x85 ∨ c.toNat = 0xA0 ∨
    c.toNat = 0x1680 ∨ (0x2000 ≤ c.toNat ∧ c.toNat ≤ 0x200A) ∨
    c.toNat = 0x2028 ∨ c.toNat = 0x2029 ∨ c.toNat = 0x202F ∨
    c.toNat = 0x205F ∨ c.toNat = 0x3000)

/-- Rust `str::split_whitespace()`: split on Unicode whitespace and
discard empty fields. -/
def rustSplitWhitespace (l : List Char) : List (List Char) :=
  (splitOnPred rustIsWhitespace l).filter (fun w => !w.isEmpty)

/-! ### The `greet` command (`lib.rs`, lines 5-8) -/

def greet (name : String) : String :=
  "Hello, " ++ name ++ "! You\x27ve been greeted from Rust!"

/-! ### The `validate_data` command (`lib.rs`, lines 26-40)

The five computed statistics, then the always-`Ok` result.  `size`
embeds `data.len()` (the byte length of the string's UTF-8
representation, which is what Rust's `str::len` returns); `is_utf8`
embeds `std::str::from_utf8(data.as_bytes()).is_ok()`; `line_count`
embeds `data.lines().count()`; `word_count` embeds
`data.split_whitespace().count()`; `is_empty` embeds
`data.is_empty()`. -/

structure ValidationResult where
  size : Nat
  is_utf8 : Bool
  line_count : Nat
  word_count : Nat
  is_empty : Bool

def validateStats (data : String) : ValidationResult where
  size := data.utf8ByteSize
  is_utf8 := validUtf8 (utf8Bytes data)
  line_count := (rustLines data.data).length
  word_count := (rustSplitWhitespace data.data).length
  is_empty := data.isEmpty

def validate_data (data : String) : Except String ValidationResult :=
  Except.ok (validateStats data)

/-! ### The `save_decoded_data` command (`lib.rs`, lines 10-24)

The outside world is an explicit record: `clock` is the current wall
clock in whole seconds relative to the Unix epoch (negative when the
clock is before the epoch, in which case `duration_since(UNIX_EPOCH)`
returns `Err` and the source's `.unwrap()` panics); `fs` maps paths to
file contents (bytes); `writable` says whether an OS write to a path
succeeds; `osError` is the OS error description reported for a failed
write at a path.  `fs::write` is modelled as atomic: it either replaces
the contents at the path or fails leaving the filesystem unchanged.
A panic is modelled by the `Option.none` result. -/

structure World where
  clock : Int
  fs : String → Option (List Nat)
  writable : String → Bool
  osError : String → String

/-- Model of `std::fs::write(path, contents)`. -/
def fsWrite (w : World) (path : String) (contents : List Nat) : Except String World :=
  if w.writable path then
    Except.ok { w with fs := fun p => if p = path then some contents else w.fs p }
  else
    Except.error (w.osError path)

def save_decoded_data (data : String) (filename : Option String) (w : World) :
    Option (Except String String × World) :=
  let fileNameOpt : Option String :=
    match filename with
    | some f => some f
    | none =>
      if 0 ≤ w.clock then
        some ("decoded_stream_" ++ toString w.clock.toNat ++ ".txt")
      else
        none
  match fileNameOpt with
  | none => none
  | some file_name =>
    match fsWrite w file_name (utf8Bytes data) with
    | Except.error e => some (Except.error ("Failed to save file: " ++ e), w)
    | Except.ok w2 => some (Except.ok ("Data saved to: " ++ file_name), w2)

/-! ### The `ping` command (`main.rs`, lines 5-8) -/

def ping : String := "pong"

/-! ### Spec-side characterisations

These follow the spec's words, independently of the iterator model
above: `specLineCount` is "the number of line segments produced by
splitting on line-terminator boundaries, a trailing line without a
terminator still counts, the empty input yields zero lines";
`countRuns p` is "the number of maximal runs" of characters *not*
satisfying `p`. -/

def specLineCount (l : List Char) : Nat :=
  if l = [] then 0
  else l.count '\n' + (if l.getLast? = some '\n' then 0 else 1)

def countRunsAux (p : Char → Bool) : Bool → List Char → Nat
  | _, [] => 0
  | inRun, c :: rest =>
    if p c then countRunsAux p false rest
    else (if inRun then 0 else 1) + countRunsAux p true rest

/-- Number of maximal runs of characters not satisfying `p`. -/
def countRuns (p : Char → Bool) (l : List Char) : Nat :=
  countRunsAux p false l

/-! ### Concrete worlds used to instantiate the `save_decoded_data` theorems -/

/-- A world where every path is writable and the filesystem is empty. -/
def wOk : World where
  clock := 7
  fs := fun _ => none
  writable := fun _ => true
  osError := fun _ => "err"

/-- `wOk` after writing the bytes of `"hi"` to `out.txt`. -/
def wOkSaved : World :=
  { wOk with fs := fun p => if p = "out.txt" then some (utf8Bytes "hi") else wOk.fs p }

/-- A world where no path is writable. -/
def wDenied : World where
  clock := 0
  fs := fun _ => none
  writable := fun _ => false
  osError := fun _ => "permission denied"

/-! ### Lemmas about `splitOnPred` -/

theorem splitOnPred_ne_nil (p : Char → Bool) (l : List Char) : splitOnPred p l ≠ [] := by
  induction l with
  | nil => simp [splitOnPred]
  | cons c rest ih =>
    simp only [splitOnPred]
    split
    · simp
    · cases h : splitOnPred p rest <;> simp

theorem length_splitOnPred (p : Char → Bool) (l : List Char) :
    (splitOnPred p l).length = l.countP p + 1 := by
  induction l with
  | nil => simp [splitOnPred]
  | cons c rest ih =>
    simp only [splitOnPred, List.countP_cons]
    split
    · simp only [List.length_cons, ih]
    · cases h : splitOnPred p rest with
      | nil => exact absurd h (splitOnPred_ne_nil p rest)
      | cons w ws =>
        rw [h] at ih
        simp only [List.length_cons] at ih ⊢
        omega

theorem mem_of_getLast? {α : Type _} {l : List α} {a : α} (h : l.getLast? = some a) :
    a ∈ l := by
  obtain ⟨hne, rfl⟩ := List.mem_getLast?_eq_getLast (Option.mem_def.mpr h)
  exact List.getLast_mem hne

theorem splitOnPred_cons_pos (p : Char → Bool) (c : Char) (rest : List Char)
    (hp : p c = true) : splitOnPred p (c :: rest) = [] :: splitOnPred p rest := by
  rw [splitOnPred, if_pos hp]

theorem splitOnPred_cons_neg (p : Char → Bool) (c : Char) (rest : List Char)
    (w : List Char) (ws : List (List Char)) (hp : p c = false)
    (hx : splitOnPred p rest = w :: ws) :
    splitOnPred p (c :: rest) = (c :: w) :: ws := by
  rw [splitOnPred, if_neg (by simp [hp]), hx]

theorem getLast?_splitOnPred (p : Char → Bool) (l : List Char) :
    ((splitOnPred p l).getLast? = some [] ↔
      l = [] ∨ ∃ c, l.getLast? = some c ∧ p c = true) := by
  induction l with
  | nil => simp [splitOnPred]
  | cons c rest ih =>
    cases hp : p c with
    | true =>
      rw [splitOnPred_cons_pos p c rest hp]
      cases rest with
      | nil => simp [splitOnPred, hp]
      | cons d rest2 =>
        cases hx : splitOnPred p (d :: rest2) with
        | nil => exact absurd hx (splitOnPred_ne_nil _ _)
        | cons y ys =>
          rw [List.getLast?_cons_cons]
          rw [hx] at ih
          rw [ih]
          simp [List.getLast?_cons_cons]
    | false =>
      cases hx : splitOnPred p rest with
      | nil => exact absurd hx (splitOnPred_ne_nil _ _)
      | cons w ws =>
        rw [splitOnPred_cons_neg p c rest w ws hp hx]
        rw [hx] at ih
        cases ws with
        | nil =>
          cases rest with
          | nil =>
            simp [hp]
          | cons d rest2 =>
            have hcount : (d :: rest2).countP p = 0 := by
              have hlen := length_splitOnPred p (d :: rest2)
              rw [hx] at hlen
              simpa using hlen.symm
            rw [List.getLast?_singleton, List.getLast?_cons_cons]
            constructor
            · intro hcw
              simp at hcw
            · rintro (hnil | ⟨e, he, hpe⟩)
              · simp at hnil
              · have hmem : e ∈ d :: rest2 := mem_of_getLast? he
                have hfalse := List.countP_eq_zero.mp hcount e hmem
                rw [hpe] at hfalse
                simp at hfalse
        | cons y ys =>
          rw [List.getLast?_cons_cons]
          rw [List.getLast?_cons_cons] at ih
          rw [ih]
          cases rest with
          | nil => simp [splitOnPred] at hx
          | cons d rest2 => simp [List.getLast?_cons_cons]

/-! ### Line count: the iterator model agrees with the spec reading -/

theorem countP_nl (l : List Char) : l.countP (fun c => c = '\n') = l.count '\n' := by
  induction l with
  | nil => rfl
  | cons c rest ih => simp [List.countP_cons, List.count_cons, ih]

theorem rustLines_length (l : List Char) : (rustLines l).length = specLineCount l := by
  unfold rustLines specLineCount
  rw [List.length_map]
  by_cases h : (splitOnPred (fun c => c = '\n') l).getLast? = some [] <;>
    simp only [h, if_pos, if_neg, if_true, if_false]
  · rw [List.length_dropLast, length_splitOnPred]
    rcases (getLast?_splitOnPred _ l).mp h with h0 | ⟨c, hc, hpc⟩
    · subst h0
      simp
    · have hlne : l ≠ [] := by
        intro hl
        rw [hl] at hc
        simp at hc
      have hc' : c = '\n' := by simpa using hpc
      subst hc'
      rw [if_neg hlne, if_pos hc, countP_nl]
      omega
  · rw [length_splitOnPred]
    have hlne : l ≠ [] := by
      intro h0
      exact h ((getLast?_splitOnPred _ l).mpr (Or.inl h0))
    have hlast : ¬l.getLast? = some '\n' := by
      intro hc
      exact h ((getLast?_splitOnPred _ l).mpr (Or.inr ⟨'\n', hc, by simp⟩))
    rw [if_neg hlne, if_neg hlast, countP_nl]

/-! ### Word count: the iterator model agrees with the spec reading -/

theorem splitOnPred_filter_count (p : Char → Bool) (l : List Char) :
    ((splitOnPred p l).filter (fun w => !w.isEmpty)).length = countRunsAux p false l ∧
    (((splitOnPred p l).tail).filter (fun w => !w.isEmpty)).length = countRunsAux p true l := by
  induction l with
  | nil => constructor <;> simp [splitOnPred, countRunsAux]
  | cons c rest ih =>
    obtain ⟨ih1, ih2⟩ := ih
    cases hp : p c with
    | true =>
      rw [splitOnPred_cons_pos p c rest hp]
      constructor
      · simpa [countRunsAux, hp] using ih1
      · simpa [countRunsAux, hp] using ih1
    | false =>
      cases hx : splitOnPred p rest with
      | nil => exact absurd hx (splitOnPred_ne_nil _ _)
      | cons w ws =>
        rw [splitOnPred_cons_neg p c rest w ws hp hx]
        rw [hx] at ih1 ih2
        simp only [List.tail_cons] at ih2
        constructor
        · simp only [List.filter_cons, List.isEmpty_cons, Bool.not_false, if_pos]
          simp only [countRunsAux, hp, Bool.false_eq_true, if_false, List.length_cons]
          omega
        · simpa [countRunsAux, hp] using ih2

theorem rustSplitWhitespace_length (l : List Char) :
    (rustSplitWhitespace l).length = countRuns rustIsWhitespace l :=
  (splitOnPred_filter_count rustIsWhitespace l).1

/-! ### UTF-8: every encoded string passes `from_utf8` validation -/

theorem validUtf8_cons_ascii (b : Nat) (r : List Nat) (h : b < 0x80) :
    validUtf8 (b :: r) = validUtf8 r := by
  rw [validUtf8, if_pos h]

theorem validUtf8_two (b1 b2 : Nat) (r : List Nat)
    (h1 : 0xC2 ≤ b1 ∧ b1 ≤ 0xDF) (h2 : isUtf8Cont b2 = true) :
    validUtf8 (b1 :: b2 :: r) = validUtf8 r := by
  rw [validUtf8, if_neg (by omega), if_pos h1, validUtf8Tail2, h2, Bool.true_and]

theorem validUtf8_three (b1 b2 b3 : Nat) (r : List Nat)
    (h1 : 0xE0 ≤ b1 ∧ b1 ≤ 0xEF) (h2 : utf8Second3 b1 b2 = true)
    (h3 : isUtf8Cont b3 = true) :
    validUtf8 (b1 :: b2 :: b3 :: r) = validUtf8 r := by
  rw [validUtf8, if_neg (by omega), if_neg (by omega), if_pos h1, validUtf8Tail3,
    h2, h3, Bool.true_and, Bool.true_and]

theorem validUtf8_four (b1 b2 b3 b4 : Nat) (r : List Nat)
    (h1 : 0xF0 ≤ b1 ∧ b1 ≤ 0xF4) (h2 : utf8Second4 b1 b2 = true)
    (h3 : isUtf8Cont b3 = true) (h4 : isUtf8Cont b4 = true) :
    validUtf8 (b1 :: b2 :: b3 :: b4 :: r) = validUtf8 r := by
  rw [validUtf8, if_neg (by omega), if_neg (by omega), if_neg (by omega), if_pos h1,
    validUtf8Tail4, h2, h3, h4, Bool.true_and, Bool.true_and, Bool.true_and]

/-- A Unicode scalar value is below the surrogate range or above it and
below `0x110000`; this is the invariant carried by `Char`. -/
theorem char_toNat_valid (c : Char) :
    c.toNat < 55296 ∨ (57343 < c.toNat ∧ c.toNat < 1114112) := c.valid

theorem validUtf8_encodeChar (c : Char) (r : List Nat) :
    validUtf8 (utf8EncodeChar c ++ r) = validUtf8 r := by
  have hv := char_toNat_valid c
  unfold utf8EncodeChar
  by_cases h1 : c.toNat < 0x80
  · rw [if_pos h1]
    exact validUtf8_cons_ascii _ r h1
  · rw [if_neg h1]
    by_cases h2 : c.toNat < 0x800
    · rw [if_pos h2]
      refine validUtf8_two _ _ r (by omega) ?_
      simp only [isUtf8Cont, decide_eq_true_eq]
      omega
    · rw [if_neg h2]
      by_cases h3 : c.toNat < 0x10000
      · rw [if_pos h3]
        refine validUtf8_three _ _ _ r (by omega) ?_ ?_
        · unfold utf8Second3
          by_cases hE0 : 0xE0 + c.toNat / 4096 = 0xE0
          · rw [if_pos hE0]
            simp only [decide_eq_true_eq]
            omega
          · rw [if_neg hE0]
            by_cases hED : 0xE0 + c.toNat / 4096 = 0xED
            · rw [if_pos hED]
              simp only [decide_eq_true_eq]
              omega
            · rw [if_neg hED]
              simp only [isUtf8Cont, decide_eq_true_eq]
              omega
        · simp only [isUtf8Cont, decide_eq_true_eq]
          omega
      · rw [if_neg h3]
        refine validUtf8_four _ _ _ _ r (by omega) ?_ ?_ ?_
        · unfold utf8Second4
          by_cases hF0 : 0xF0 + c.toNat / 262144 = 0xF0
          · rw [if_pos hF0]
            simp only [decide_eq_true_eq]
            omega
          · rw [if_neg hF0]
            by_cases hF4 : 0xF0 + c.toNat / 262144 = 0xF4
            · rw [if_pos hF4]
              simp only [decide_eq_true_eq]
              omega
            · rw [if_neg hF4]
              simp only [isUtf8Cont, decide_eq_true_eq]
              omega
        · simp only [isUtf8Cont, decide_eq_true_eq]
          omega
        · simp only [isUtf8Cont, decide_eq_true_eq]
          omega

theorem validUtf8_flatMap (l : List Char) :
    validUtf8 (l.flatMap utf8EncodeChar) = true := by
  induction l with
  | nil => rfl
  | cons c cs ih => rw [List.flatMap_cons, validUtf8_encodeChar, ih]

theorem validUtf8_utf8Bytes (s : String) : validUtf8 (utf8Bytes s) = true :=
  validUtf8_flatMap s.data

/-! ### Byte length: `str::len` equals the length of the UTF-8 encoding -/

theorem uint32_le_iff (a b : UInt32) : a ≤ b ↔ a.toNat ≤ b.toNat :=
  ⟨fun h => h, fun h => h⟩

theorem utf8Size_eq (c : Char) :
    c.utf8Size = if c.toNat < 0x80 then 1 else if c.toNat < 0x800 then 2
      else if c.toNat < 0x10000 then 3 else 4 := by
  have e1 : (c.val ≤ (0x7F : UInt32)) ↔ c.toNat < 0x80 := by
    rw [uint32_le_iff]
    show c.toNat ≤ 0x7F ↔ c.toNat < 0x80
    omega
  have e2 : (c.val ≤ (0x7FF : UInt32)) ↔ c.toNat < 0x800 := by
    rw [uint32_le_iff]
    show c.toNat ≤ 0x7FF ↔ c.toNat < 0x800
    omega
  have e3 : (c.val ≤ (0xFFFF : UInt32)) ↔ c.toNat < 0x10000 := by
    rw [uint32_le_iff]
    show c.toNat ≤ 0xFFFF ↔ c.toNat < 0x10000
    omega
  unfold Char.utf8Size
  show (if c.val ≤ (0x7F : UInt32) then 1 else if c.val ≤ (0x7FF : UInt32) then 2
    else if c.val ≤ (0xFFFF : UInt32) then (3 : Nat) else 4) = _
  simp only [e1, e2, e3]

theorem length_utf8EncodeChar (c : Char) : (utf8EncodeChar c).length = c.utf8Size := by
  rw [utf8Size_eq]
  unfold utf8EncodeChar
  split_ifs <;> rfl

theorem utf8ByteSizeGo_eq (l : List Char) :
    String.utf8ByteSize.go l = (l.flatMap utf8EncodeChar).length := by
  induction l with
  | nil => rfl
  | cons c cs ih =>
    rw [List.flatMap_cons, List.length_append, length_utf8EncodeChar]
    show String.utf8ByteSize.go cs + c.utf8Size = _
    rw [ih]
    omega

theorem utf8ByteSize_eq (s : String) : s.utf8ByteSize = (utf8Bytes s).length :=
  utf8ByteSizeGo_eq s.data

theorem utf8Size_pos_nat (c : Char) : 1 ≤ (utf8EncodeChar c).length := by
  rw [length_utf8EncodeChar]
  exact Char.utf8Size_pos c

theorem isEmpty_iff_byteSize (s : String) : s.isEmpty = true ↔ s.utf8ByteSize = 0 := by
  rw [String.isEmpty]
  cases s with
  | mk l =>
    cases l with
    | nil => simp [String.endPos, String.utf8ByteSize, String.utf8ByteSize.go]
    | cons c cs =>
      have hgo : String.utf8ByteSize.go (c :: cs) ≠ 0 := by
        rw [utf8ByteSizeGo_eq, List.flatMap_cons, List.length_append]
        have := utf8Size_pos_nat c
        omega
      simp only [String.endPos, String.utf8ByteSize]
      constructor
      · intro h
        have : String.utf8ByteSize.go (c :: cs) = 0 := by
          have hb := of_decide_eq_true (by exact h)
          exact congrArg String.Pos.byteIdx hb
        exact absurd this hgo
      · intro h
        exact absurd h hgo

/-! ### Behaviour of `save_decoded_data` -/

theorem save_with_filename_ok (data f : String) (w : World)
    (h : w.writable f = true) :
    save_decoded_data data (some f) w =
      some (Except.ok ("Data saved to: " ++ f),
        { w with fs := fun p => if p = f then some (utf8Bytes data) else w.fs p }) := by
  unfold save_decoded_data fsWrite
  simp [h]

theorem save_with_filename_err (data f : String) (w : World)
    (h : w.writable f = false) :
    save_decoded_data data (some f) w =
      some (Except.error ("Failed to save file: " ++ w.osError f), w) := by
  unfold save_decoded_data fsWrite
  simp [h]

theorem save_none_eq_some_default (data : String) (w : World) (h : 0 ≤ w.clock) :
    save_decoded_data data none w =
      save_decoded_data data
        (some ("decoded_stream_" ++ toString w.clock.toNat ++ ".txt")) w := by
  unfold save_decoded_data
  simp [h]

theorem save_some_outcomes (data f : String) (w : World)
    (r : Except String String) (w2 : World)
    (h : save_decoded_data data (some f) w = some (r, w2)) :
    (∃ g, r = Except.ok ("Data saved to: " ++ g) ∧ w2.fs g = some (utf8Bytes data)) ∨
    (∃ g, r = Except.error ("Failed to save file: " ++ w.osError g) ∧ w2 = w) := by
  cases hw : w.writable f with
  | true =>
    rw [save_with_filename_ok data f w hw] at h
    rw [Option.some.injEq, Prod.mk.injEq] at h
    obtain ⟨hr, hw2⟩ := h
    left
    refine ⟨f, hr.symm, ?_⟩
    rw [← hw2]
    simp
  | false =>
    rw [save_with_filename_err data f w hw] at h
    rw [Option.some.injEq, Prod.mk.injEq] at h
    obtain ⟨hr, hw2⟩ := h
    right
    exact ⟨f, hr.symm, hw2.symm⟩

/-! ### The claims -/

/-- Claim C1: for every input string `s`, the `line_count` field of
`validate_data(s)` equals the number of line segments produced by
splitting `s` on line-terminator boundaries, where a trailing line
without a terminator still counts as a line and the empty string yields
zero lines; in particular `validate_data` on the three-line string
`"a\nb\nc"` returns `line_count = 3`. -/
theorem C1_line_count :
    (∀ s : String, (validateStats s).line_count = specLineCount s.data) ∧
    (validateStats "a\nb\nc").line_count = 3 :=
  ⟨fun s => rustLines_length s.data, by decide⟩

/-- Claim C2: if `save_decoded_data data (some f)` fails (the path `f` is
not writable), it returns an error string containing the underlying OS
error description, and the filesystem state is unchanged (no file is
created at the path). -/
theorem C2_save_error (data f : String) (w : World) (h : w.writable f = false) :
    save_decoded_data data (some f) w =
      some (Except.error ("Failed to save file: " ++ w.osError f), w) :=
  save_with_filename_err data f w h

/-- Witness for C2 at a concrete non-writable world. -/
theorem C2_save_error_witness :
    wDenied.writable "out.txt" = false ∧
    save_decoded_data "payload" (some "out.txt") wDenied =
      some (Except.error ("Failed to save file: " ++ wDenied.osError "out.txt"), wDenied) :=
  ⟨rfl, C2_save_error "payload" "out.txt" wDenied rfl⟩

/-- Claim C3: whenever `save_decoded_data` returns a value, the value is
either a success confirmation string containing the filename actually
used (and that file then holds the data's bytes), or an error message
that includes the underlying cause (and the filesystem is unchanged);
these are the only two outcomes. -/
theorem C3_save_outcomes (data : String) (filename : Option String) (w : World)
    (r : Except String String) (w2 : World)
    (h : save_decoded_data data filename w = some (r, w2)) :
    (∃ g, r = Except.ok ("Data saved to: " ++ g) ∧ w2.fs g = some (utf8Bytes data)) ∨
    (∃ g, r = Except.error ("Failed to save file: " ++ w.osError g) ∧ w2 = w) := by
  cases filename with
  | some f => exact save_some_outcomes data f w r w2 h
  | none =>
    by_cases hc : 0 ≤ w.clock
    · rw [save_none_eq_some_default data w hc] at h
      exact save_some_outcomes data _ w r w2 h
    · unfold save_decoded_data at h
      simp [hc] at h

/-- Witness for C3 at a concrete writable world. -/
theorem C3_save_outcomes_witness :
    (save_decoded_data "hi" (some "out.txt") wOk =
      some (Except.ok ("Data saved to: " ++ "out.txt"), wOkSaved)) ∧
    ((∃ g, (Except.ok ("Data saved to: " ++ "out.txt") : Except String String) =
        Except.ok ("Data saved to: " ++ g) ∧ wOkSaved.fs g = some (utf8Bytes "hi")) ∨
     (∃ g, (Except.ok ("Data saved to: " ++ "out.txt") : Except String String) =
        Except.error ("Failed to save file: " ++ wOk.osError g) ∧ wOkSaved = wOk)) :=
  ⟨rfl, C3_save_outcomes "hi" (some "out.txt") wOk _ wOkSaved rfl⟩

/-- Claim C4: with no filename given, `save_decoded_data` derives the
target filename from the wall clock as whole seconds since the Unix
epoch, formatted exactly `decoded_stream_<seconds>.txt`, and on success
the created file's contents are exactly the input data's bytes. -/
theorem C4_save_default (data : String) (w : World) (h0 : 0 ≤ w.clock)
    (hw : w.writable ("decoded_stream_" ++ toString w.clock.toNat ++ ".txt") = true) :
    ∃ w2,
      save_decoded_data data none w =
        some (Except.ok ("Data saved to: " ++
          ("decoded_stream_" ++ toString w.clock.toNat ++ ".txt")), w2) ∧
      w2.fs ("decoded_stream_" ++ toString w.clock.toNat ++ ".txt") =
        some (utf8Bytes data) := by
  rw [save_none_eq_some_default data w h0, save_with_filename_ok data _ w hw]
  refine ⟨_, rfl, ?_⟩
  simp

/-- Witness for C4 at a concrete world whose clock reads 7 seconds. -/
theorem C4_save_default_witness :
    ((0 : Int) ≤ wOk.clock ∧
      wOk.writable ("decoded_stream_" ++ toString wOk.clock.toNat ++ ".txt") = true) ∧
    ∃ w2,
      save_decoded_data "content" none wOk =
        some (Except.ok ("Data saved to: " ++
          ("decoded_stream_" ++ toString wOk.clock.toNat ++ ".txt")), w2) ∧
      w2.fs ("decoded_stream_" ++ toString wOk.clock.toNat ++ ".txt") =
        some (utf8Bytes "content") :=
  ⟨⟨by decide, rfl⟩, C4_save_default "content" wOk (by decide) rfl⟩

/-- Claim C5: `validate_data` never fails: for every input string,
including the empty string, it returns `Ok` with a structured result
(the five-field `ValidationResult`), and it is a pure function. -/
theorem C5_validate_total : ∀ s : String, ∃ r, validate_data s = Except.ok r :=
  fun s => ⟨validateStats s, rfl⟩

/-- Claim C6: for every input string `s`, the `word_count` field of
`validate_data(s)` equals the number of maximal runs of non-whitespace
characters of `s` (whitespace meaning any Unicode whitespace character,
contiguous whitespace acting as one separator, and leading or trailing
whitespace producing no empty words); in particular
`validate_data("hello world")` returns `word_count = 2`. -/
theorem C6_word_count :
    (∀ s : String, (validateStats s).word_count = countRuns rustIsWhitespace s.data) ∧
    (validateStats "hello world").word_count = 2 :=
  ⟨fun s => rustSplitWhitespace_length s.data, by decide⟩

/-- Claim C7: for every input string `s`, the `size` field of
`validate_data(s)` equals the length of `s` in bytes (the length of its
UTF-8 encoding, not the number of code points), and `is_empty` is true
if and only if `size = 0`. -/
theorem C7_size_is_byte_length :
    ∀ s : String,
      (validateStats s).size = (utf8Bytes s).length ∧
      ((validateStats s).is_empty = true ↔ (validateStats s).size = 0) :=
  fun s => ⟨utf8ByteSize_eq s, isEmpty_iff_byteSize s⟩

/-- Claim C8: `greet` returns the fixed-template greeting embedding the
given name; in particular `greet "Ada"` is exactly
`"Hello, Ada! You\x27ve been greeted from Rust!"`. -/
theorem C8_greet :
    (∀ name : String,
      greet name = "Hello, " ++ name ++ "! You\x27ve been greeted from Rust!") ∧
    greet "Ada" = "Hello, Ada! You\x27ve been greeted from Rust!" :=
  ⟨fun _ => rfl, by decide⟩

/-- Claim C9: the `is_utf8` field of `validate_data`'s result is `true`
for every input string: the input is an already-decoded string whose
byte representation is guaranteed valid UTF-8, so the re-validation
`std::str::from_utf8(data.as_bytes())` always succeeds. -/
theorem C9_is_utf8_always_true : ∀ s : String, (validateStats s).is_utf8 = true :=
  fun s => validUtf8_utf8Bytes s

/-- Claim C10: with an absent filename, `save_decoded_data` panics (the
`unwrap` of `duration_since` fails) exactly when the wall clock reads a
time earlier than the Unix epoch; when the clock is at or after the
epoch this panic branch is unreachable. -/
theorem C10_panic_iff_pre_epoch :
    ∀ (data : String) (w : World),
      (save_decoded_data data none w = none ↔ w.clock < 0) := by
  intro data w
  by_cases h : 0 ≤ w.clock
  · rw [save_none_eq_some_default data w h]
    cases hw : w.writable ("decoded_stream_" ++ toString w.clock.toNat ++ ".txt") with
    | true =>
      rw [save_with_filename_ok _ _ _ hw]
      simp
      omega
    | false =>
      rw [save_with_filename_err _ _ _ hw]
      simp
      omega
  · unfold save_decoded_data
    simp [h]
    omega

end StreamingQR
